import Mathlib

/-!
Verification of the pykson JSON object-mapping library
(`src/pykson/__init__.py`) against its natural-language specification.

The development is a shallow embedding of the library:

* `PyVal` models the Python runtime values flowing through the library:
  `None`, `bool`, `int`, `float`, `str`, `list`, `dict` and `JsonObject`
  instances (class name plus the instance's `_data` mapping).  Python
  floats are modelled as exact rationals: the only float operation the
  library performs is the conversion `float(value)` of an `int`, which is
  modelled exactly (IEEE rounding of huge integers is out of scope).
* Python strings are split into two constructors: `strLit` for ordinary
  string data and `strDumps d` for the text produced by `json.dumps(d)`.
  The spec (section 1) treats the host JSON parser/printer as a black-box
  `parse(text) -> Value` / `print(Value) -> text` pair with
  `parse (print v) = v`; `strDumps` realises exactly that law, and
  `json.loads` on arbitrary other text is left unmodelled (it can only be
  reached by feeding hand-written text to `from_json`, which no claim does).
* Field descriptors (`Field`), their constructors, the metaclass
  registration, `my_custom_init`, `Pykson.from_json` and `Pykson.to_json`
  are translated line by line from the source; `from_json`/`to_json`
  receive a fuel parameter for the recursion into nested record types.
-/

namespace Pykson

/-- FieldType enumeration (source lines 9-14). -/
inductive FieldType where
  | INTEGER
  | FLOAT
  | BOOLEAN
  | STRING
  | LIST
deriving DecidableEq

/-- Item types admitted by `ListField.__init__` (source line 205:
`valid_types = [int, str, bool, float]`).  The source asserts membership of
`item_type` in that list; here the closed type makes the assertion
vacuously true. -/
inductive PrimTy where
  | int
  | str
  | bool
  | float
deriving DecidableEq

/-- Python runtime values reachable inside the library.  `strLit` is an
ordinary string, `strDumps d` is the string `json.dumps(d)` (see the module
docstring), `obj cls data` is a `JsonObject` instance of class `cls` whose
`_data` dictionary is `data` (dictionaries are insertion-ordered
association lists, as in Python). -/
inductive PyVal where
  | none
  | bool (b : Bool)
  | int (n : Int)
  | float (q : Rat)
  | strLit (s : String)
  | strDumps (d : List (String × PyVal))
  | list (xs : List PyVal)
  | dict (kvs : List (String × PyVal))
  | obj (cls : String) (data : List (String × PyVal))

/-- Errors raised by the library.  Each constructor corresponds to one
`raise`/`assert` site of the source; the spec's names for them are:
`nullValue` = NullValueError, `typeMismatch` = TypeMismatchError,
`domainViolation` = DomainViolationError, `unknownField` =
UnknownFieldError, `configError` = ConfigurationError, `parseError` =
ParseError.  `keyError` is the Python KeyError raised by `Field.__get__`
when `_data` lacks the key; `nullListItem`/`listItemTypeMismatch` are the
per-item asserts of `ListField.__set__`/`ObjectListField.__set__`;
`classNotFound` marks a dangling record-type reference (unrepresentable in
Python, where classes are passed directly); `outOfFuel` marks recursion
fuel exhaustion of the embedding. -/
inductive PyErr where
  | nullValue (fieldName : String)
  | typeMismatch (fieldName : String)
  | domainViolation (fieldName : String)
  | unknownField (key : String) (value : PyVal)
  | configError
  | nullListItem
  | listItemTypeMismatch
  | keyError (key : String)
  | parseError (text : String)
  | classNotFound (cls : String)
  | notADict
  | notAnObject
  | outOfFuel

/-- Static part of a field descriptor: which concrete `Field` subclass it
is, together with the data fixed at construction time (the validated
option set of the multiple-choice flavours, the item type of the list
flavours). -/
inductive FieldKind where
  | integer
  | float
  | boolean
  | string
  | multipleChoiceString (options : List PyVal)
  | multipleChoiceInteger (options : List PyVal)
  | listPrim (item_type : PrimTy)
  | objectList (item_type : String)

/-- The `field_type` attribute each subclass constructor passes to
`Field.__init__` (source lines 47-48, 60-61, 71-72, 82-83, 95-96, 147-148,
203-204, 355-356). -/
def FieldKind.fieldType : FieldKind → FieldType
  | .integer => .INTEGER
  | .float => .FLOAT
  | .boolean => .BOOLEAN
  | .string => .STRING
  | .multipleChoiceString _ => .STRING
  | .multipleChoiceInteger _ => .INTEGER
  | .listPrim _ => .LIST
  | .objectList _ => .LIST

/-- A field descriptor as produced by a subclass constructor, before the
metaclass has assigned names: `serialized_name` may still be `None` and
`name` is not yet set (source lines 33-37). -/
structure PreField where
  kind : FieldKind
  serialized_name : Option String
  null : Bool

/-- A field descriptor after class registration: `JsonObjectMeta.__new__`
has defaulted `serialized_name` to the attribute name and stored the
attribute name in `name` (source lines 227-232), so both are plain
strings. -/
structure Field where
  kind : FieldKind
  serialized_name : String
  name : String
  null : Bool

/-- Python `value is None`. -/
def isNone : PyVal → Bool
  | .none => true
  | _ => false

/-- Python `isinstance(value, int)`.  `bool` is a subclass of `int` in
Python, so booleans pass this test. -/
def isInstInt : PyVal → Bool
  | .int _ => true
  | .bool _ => true
  | _ => false

/-- Python `isinstance(value, bool)`. -/
def isInstBool : PyVal → Bool
  | .bool _ => true
  | _ => false

/-- Python `isinstance(value, float)`.  Neither `int` nor `bool` is an
instance of `float`. -/
def isInstFloat : PyVal → Bool
  | .float _ => true
  | _ => false

/-- Python `isinstance(value, str)`. -/
def isInstStr : PyVal → Bool
  | .strLit _ => true
  | .strDumps _ => true
  | _ => false

/-- Python `isinstance(value, list)`. -/
def isInstList : PyVal → Bool
  | .list _ => true
  | _ => false

/-- The integer a value contributes under Python's numeric protocols:
`int`s are themselves, `True`/`False` are `1`/`0`. -/
def pyIntVal : PyVal → Option Int
  | .int n => some n
  | .bool b => some (if b then 1 else 0)
  | _ => Option.none

/-- Python `float(n)` on an `int` (or `bool`), modelled exactly as a
rational. -/
def intToFloat (n : Int) : Rat := (n : Rat)

/-- Python `==` restricted to the values that can appear in a
multiple-choice option set or be compared against one (`None`, `bool`,
`int`, `float`, string literals): numeric kinds compare by numeric value
(`True == 1`, `5 == 5.0`), strings compare by text, everything else
compares unequal.  A `strDumps` string equals a literal only if the
printed text coincides, which is never the case for the option literals
any claim manipulates, so those comparisons are `false` here. -/
def pyEqPrim : PyVal → PyVal → Bool
  | .none, .none => true
  | .bool a, .bool b => a = b
  | .bool a, .int n => (if a then (1 : Int) else 0) = n
  | .int n, .bool a => n = (if a then (1 : Int) else 0)
  | .int m, .int n => m = n
  | .int m, .float q => (m : Rat) = q
  | .float q, .int m => q = (m : Rat)
  | .float p, .float q => p = q
  | .bool a, .float q => ((if a then (1 : Int) else 0 : Int) : Rat) = q
  | .float q, .bool a => q = ((if a then (1 : Int) else 0 : Int) : Rat)
  | .strLit s, .strLit t => s = t
  | _, _ => false

/-- Python `value in options` where `options` is the stored option set of a
multiple-choice field (source lines 91, 143: membership uses Python
equality). -/
def pyMem (v : PyVal) (options : List PyVal) : Bool :=
  options.any (pyEqPrim v)

/-- Python `len(options) != len(set(options))` (source lines 103, 155):
some value occurs at least twice under Python equality. -/
def hasPyDup : List PyVal → Bool
  | [] => false
  | x :: xs => xs.any (pyEqPrim x) || hasPyDup xs

/-- Python dictionary store `d[k] = v`: an existing key is updated in
place (insertion order preserved), a new key is appended.  A Python
dictionary never holds a key twice, so updating the first match is
updating the only match. -/
def assocInsert : List (String × α) → String → α → List (String × α)
  | [], k, v => [(k, v)]
  | p :: rest, k, v => if p.1 = k then (k, v) :: rest else p :: assocInsert rest k v

/-- Python dictionary lookup `d[k]` / `k in d.keys()` combined: `some v`
when the key is present. -/
def assocGet : List (String × α) → String → Option α
  | [], _ => Option.none
  | p :: rest, k => if p.1 = k then some p.2 else assocGet rest k

/-- Base `Field.__set__` (source lines 26-31): the non-null assert, then
the store into `instance._data[self.serialized_name]`.  Returns the value
that gets stored; the caller performs the store. -/
def Field_set (f : Field) (v : PyVal) : Except PyErr PyVal :=
  if f.null = false ∧ isNone v = true then
    .error (.nullValue f.serialized_name)
  else
    .ok v

/-- Per-item asserts of `ListField.__set__` (source lines 198-200), in
loop order: first `item is not None`, then `isinstance(item, item_type)`;
the first failing item wins. -/
def listItemsCheck (t : PrimTy) : List PyVal → Option PyErr
  | [] => Option.none
  | x :: xs =>
    if isNone x = true then some .nullListItem
    else if (match t with
             | .int => isInstInt x
             | .str => isInstStr x
             | .bool => isInstBool x
             | .float => isInstFloat x) = false then some .listItemTypeMismatch
    else listItemsCheck t xs

/-- Python `isinstance(item, item_type)` where `item_type` is a
`JsonObject` subclass (used by `ObjectListField.__set__`, source line
352).  Subclassing between user record types is not modelled: an instance
matches exactly its own class. -/
def isInstObj (cls : String) : PyVal → Bool
  | .obj c _ => c = cls
  | _ => false

/-- Per-item asserts of `ObjectListField.__set__` (source lines 350-352). -/
def objListItemsCheck (cls : String) : List PyVal → Option PyErr
  | [] => Option.none
  | x :: xs =>
    if isNone x = true then some .nullListItem
    else if isInstObj cls x = false then some .listItemTypeMismatch
    else objListItemsCheck cls xs

/-- Dispatch of `__set__` over the concrete `Field` subclasses, each
translated from its source override; the result is the value stored into
`_data` on success.  Check order follows the source exactly: every
subclass runs its own checks and then delegates to `Field.__set__` (the
null check and the store).

* `IntegerField.__set__` (lines 42-45), `BooleanField.__set__` (66-69),
  `StringField.__set__` (77-80): type check guarded by `value is not None`.
* `FloatField.__set__` (53-58): an `int` value (booleans included, being
  `int` instances) is first widened by `float(value)`.
* `MultipleChoiceStringField.__set__` (88-93) and
  `MultipleChoiceIntegerField.__set__` (140-145): type check, then
  membership in the option set (`EnumStringField`/`EnumIntegerField` have
  the identical body over the option set derived from the enum).
* `ListField.__set__` (193-201) and `ObjectListField.__set__` (345-353):
  list-shape check, `None` replaced by `[]`, per-item asserts, then
  `Field.__set__`.  Note the `None -> []` replacement happens before the
  base null check, so the base check always sees a non-null list. -/
def field_set (f : Field) (v : PyVal) : Except PyErr PyVal :=
  match f.kind with
  | .integer =>
    if isNone v = false ∧ isInstInt v = false then .error (.typeMismatch f.name)
    else Field_set f v
  | .float =>
    let v := if isNone v = false ∧ isInstInt v = true then
               .float (intToFloat ((pyIntVal v).getD 0))
             else v
    if isNone v = false ∧ isInstFloat v = false then .error (.typeMismatch f.name)
    else Field_set f v
  | .boolean =>
    if isNone v = false ∧ isInstBool v = false then .error (.typeMismatch f.name)
    else Field_set f v
  | .string =>
    if isNone v = false ∧ isInstStr v = false then .error (.typeMismatch f.name)
    else Field_set f v
  | .multipleChoiceString options =>
    if isNone v = false ∧ isInstStr v = false then .error (.typeMismatch f.name)
    else if isNone v = false ∧ pyMem v options = false then .error (.domainViolation f.name)
    else Field_set f v
  | .multipleChoiceInteger options =>
    if isNone v = false ∧ isInstInt v = false then .error (.typeMismatch f.name)
    else if isNone v = false ∧ pyMem v options = false then .error (.domainViolation f.name)
    else Field_set f v
  | .listPrim t =>
    match v with
    | .none =>
      Field_set f (.list [])
    | .list xs =>
      match listItemsCheck t xs with
      | some e => .error e
      | Option.none => Field_set f (.list xs)
    | _ => .error (.typeMismatch f.name)
  | .objectList cls =>
    match v with
    | .none =>
      Field_set f (.list [])
    | .list xs =>
      match objListItemsCheck cls xs with
      | some e => .error e
      | Option.none => Field_set f (.list xs)
    | _ => .error (.typeMismatch f.name)

/-- Attribute assignment `setattr(instance, f.name, v)` as a transformer
of the instance's `_data` dictionary: validation runs first, and only a
fully successful validation reaches the store at source line 31 (a Python
`raise` aborts `__set__` before the assignment), so on error the dictionary
is returned untouched. -/
def setAttrState (d : List (String × PyVal)) (f : Field) (v : PyVal) :
    Option PyErr × List (String × PyVal) :=
  match field_set f v with
  | .error e => (some e, d)
  | .ok w => (Option.none, assocInsert d f.serialized_name w)

/-- Attribute read `Field.__get__` (source lines 20-23): returns
`instance._data[self.serialized_name]`, a Python KeyError when the key is
absent. -/
def Field_get (d : List (String × PyVal)) (f : Field) : Except PyErr PyVal :=
  match assocGet d f.serialized_name with
  | some v => .ok v
  | Option.none => .error (.keyError f.serialized_name)

/-- Constructors of the four plain field classes (source lines 47-48,
60-61, 71-72, 82-83): no validation, they just record kind, serialized
name and nullability. -/
def IntegerField_init (serialized_name : Option String) (null : Bool) : PreField :=
  ⟨.integer, serialized_name, null⟩

/-- FloatField constructor (source lines 60-61). -/
def FloatField_init (serialized_name : Option String) (null : Bool) : PreField :=
  ⟨.float, serialized_name, null⟩

/-- BooleanField constructor (source lines 71-72). -/
def BooleanField_init (serialized_name : Option String) (null : Bool) : PreField :=
  ⟨.boolean, serialized_name, null⟩

/-- StringField constructor (source lines 82-83). -/
def StringField_init (serialized_name : Option String) (null : Bool) : PreField :=
  ⟨.string, serialized_name, null⟩

/-- MultipleChoiceStringField constructor (source lines 95-108), checks in
source order: empty options, duplicate options (`len(options) !=
len(set(options))`; with unhashable option values Python's `set` call
raises instead, and the construction fails either way), then each option
must be a `str`.  The `options is None` and `options` not-list-nor-set
checks are unrepresentable here: options arrive as a list. -/
def MultipleChoiceStringField_init (options : List PyVal)
    (serialized_name : Option String) (null : Bool) : Except PyErr PreField :=
  if options.length = 0 then .error .configError
  else if hasPyDup options = true then .error .configError
  else if options.any (fun o => !(isInstStr o)) then .error .configError
  else .ok ⟨.multipleChoiceString options, serialized_name, null⟩

/-- MultipleChoiceIntegerField constructor (source lines 147-160), same
shape with the per-option check `isinstance(option, int)` (booleans pass,
being `int` instances). -/
def MultipleChoiceIntegerField_init (options : List PyVal)
    (serialized_name : Option String) (null : Bool) : Except PyErr PreField :=
  if options.length = 0 then .error .configError
  else if hasPyDup options = true then .error .configError
  else if options.any (fun o => !(isInstInt o)) then .error .configError
  else .ok ⟨.multipleChoiceInteger options, serialized_name, null⟩

/-- ListField constructor (source lines 203-207); the membership of
`item_type` in `valid_types = [int, str, bool, float]` is enforced by the
type of `item_type` here. -/
def ListField_init (item_type : PrimTy) (serialized_name : Option String)
    (null : Bool) : PreField :=
  ⟨.listPrim item_type, serialized_name, null⟩

/-- ObjectListField constructor (source lines 355-357). -/
def ObjectListField_init (item_type : String) (serialized_name : Option String)
    (null : Bool) : PreField :=
  ⟨.objectList item_type, serialized_name, null⟩

/-- Field-registration loop of `JsonObjectMeta.__new__` (source lines
227-232): for each class attribute that is a `Field`, default
`serialized_name` to the attribute name and record the attribute name in
`field.name`. -/
def metaRegisterFields (attrs : List (String × PreField)) : List Field :=
  attrs.map (fun p => ⟨p.2.kind, p.2.serialized_name.getD p.1, p.1, p.2.null⟩)

/-- A registry of record types: class name to the field list produced by
`JsonObject.get_fields` (source lines 319-326, the class's own `__dict__`
in declaration order). -/
def Env := List (String × List Field)

/-- Class lookup in the registry.  In Python the class object itself is
passed around, so the lookup cannot fail; a dangling name yields
`classNotFound`. -/
def lookupEnv (env : Env) (cls : String) : Option (List Field) :=
  (env.find? (fun p => p.1 = cls)).map (·.2)

/-- `JsonObject.get_fields_mapped_by_serialized_names` (source lines
299-308): a dictionary from serialized name to field.  After registration
`serialized_name` is never `None`, so the else-branch of the source is
unreachable. -/
def get_fields_mapped_by_serialized_names (fields : List Field) :
    List (String × Field) :=
  fields.foldl (fun acc f => assocInsert acc f.serialized_name f) []

/-- `JsonObject.get_field_names_mapped_by_serialized_names` (source lines
310-317): a dictionary from serialized name to internal field name (after
registration `serialized_name` is always set). -/
def get_field_names_mapped_by_serialized_names (fields : List Field) :
    List (String × String) :=
  fields.foldl (fun acc f => assocInsert acc f.serialized_name f.name) []

/-- The replacement constructor `my_custom_init` installed on every class
by `JsonObjectMeta.__new__` (source lines 237-248; the metaclass
unconditionally overwrites `__init__`, so the body at lines 254-289 never
runs).  Starting from `_data = {}`, each keyword argument whose key is a
declared field attribute name is assigned through that field's `__set__`;
any other key raises the unknown-field error unless `accept_unknown`.
Arguments are processed in dictionary (insertion) order; `d` accumulates
`_data`. -/
def my_custom_init (fields : List Field) (accept_unknown : Bool) :
    List (String × PyVal) → List (String × PyVal) → Except PyErr (List (String × PyVal))
  | [], d => .ok d
  | (key, value) :: rest, d =>
    match fields.find? (fun f => f.name = key) with
    | some f =>
      match field_set f value with
      | .error e => .error e
      | .ok w => my_custom_init fields accept_unknown rest (assocInsert d f.serialized_name w)
    | Option.none =>
      if accept_unknown = true then my_custom_init fields accept_unknown rest d
      else .error (.unknownField key value)

/-- The `isinstance(data, str): data = json.loads(data)` step at the top
of `Pykson.from_json` (source lines 365-366).  `json.loads` on the output
of `json.dumps` returns the printed value (the spec's black-box law
`parse (print v) = v`); parsing arbitrary other text is not modelled. -/
def pyLoads : PyVal → Except PyErr PyVal
  | .strDumps d => .ok (.dict d)
  | .strLit s => .error (.parseError s)
  | v => .ok v

/-- The else-branch of the `data.items()` loop of `Pykson.from_json`
(source lines 380-383): rename the key to the internal field name when it
is a known serialized name, else keep it, and store the value unchanged
into `data_copy`. -/
def from_json_rename (fields : List Field) (acc : List (String × PyVal))
    (k : String) (v : PyVal) : List (String × PyVal) :=
  match assocGet (get_field_names_mapped_by_serialized_names fields) k with
  | some n => assocInsert acc n v
  | Option.none => assocInsert acc k v

/-- Condition and body of the object-list branch of the `data.items()`
loop of `Pykson.from_json` (source lines 371-378): the value is a list,
the key is a known serialized name, and its field is an
`ObjectListField`; then every element is recursively decoded (with the
default `accept_unknown=False`) and the list is stored under the original
serialized key.  Every other entry goes through `from_json_rename`
(lines 380-383). -/
def from_json_entry (fields : List Field)
    (dec : PyVal → String → Except PyErr PyVal)
    (acc : List (String × PyVal)) (k : String) (v : PyVal) :
    Except PyErr (List (String × PyVal)) :=
  match v with
  | .list xs =>
    match assocGet (get_fields_mapped_by_serialized_names fields) k with
    | some f =>
      match f.kind with
      | .objectList item_type =>
        match xs.mapM (fun it => dec it item_type) with
        | .error e => .error e
        | .ok ys => .ok (assocInsert acc k (.list ys))
      | _ => .ok (from_json_rename fields acc k (.list xs))
    | Option.none => .ok (from_json_rename fields acc k (.list xs))
  | v => .ok (from_json_rename fields acc k v)

/-- The full `data.items()` loop building `data_copy` (source lines
369-383). -/
def from_json_loop (fields : List Field)
    (dec : PyVal → String → Except PyErr PyVal) :
    List (String × PyVal) → List (String × PyVal) → Except PyErr (List (String × PyVal))
  | [], acc => .ok acc
  | (k, v) :: rest, acc =>
    match from_json_entry fields dec acc k v with
    | .error e => .error e
    | .ok acc1 => from_json_loop fields dec rest acc1

/-- `Pykson.from_json` (source lines 363-384): parse textual input, build
`data_copy` by the renaming/recursion loop, then construct the instance
via `cls(accept_unknown=accept_unknown, **data_copy)`, i.e.
`my_custom_init`.  Nested recursive calls (line 376) pass the default
`accept_unknown=False`.  `fuel` bounds the recursion depth of the
embedding; every claim is stated with enough fuel for its schema. -/
def from_json (env : Env) : Nat → PyVal → String → Bool → Except PyErr PyVal
  | 0, _, _, _ => .error .outOfFuel
  | fuel' + 1, data, cls, accept_unknown =>
    match pyLoads data with
    | .error e => .error e
    | .ok data1 =>
      match lookupEnv env cls with
      | Option.none => .error (.classNotFound cls)
      | some fields =>
        match data1 with
        | .dict items =>
          match from_json_loop fields (fun it ty => from_json env fuel' it ty false) items [] with
          | .error e => .error e
          | .ok data_copy =>
            match my_custom_init fields accept_unknown data_copy [] with
            | .error e => .error e
            | .ok d => .ok (.obj cls d)
        | _ => .error .notADict

/-- `JsonObject.get_field_values_as_dict` (source lines 328-337): iterate
the class's fields in declaration order, read each through `__get__`
(KeyError when `_data` lacks the key) and collect the values keyed by
serialized name. -/
def get_field_values_as_dict (fields : List Field)
    (data : List (String × PyVal)) : Except PyErr (List (String × PyVal)) :=
  fields.foldlM
    (fun acc f =>
      match Field_get data f with
      | .error e => .error e
      | .ok v => .ok (assocInsert acc f.serialized_name v))
    []

/-- `Pykson.to_json` (source lines 386-403): collect the field values,
replace every `JsonObject` value (and every `JsonObject` element of a list
value) by the recursive `Pykson.to_json` result — which is the *string*
`json.dumps` produces, not a dictionary — and finally print the resulting
dictionary with `json.dumps`.  Only `JsonObject` instances are accepted
(`get_field_values_as_dict` is a method on `JsonObject`). -/
def to_json (env : Env) : Nat → PyVal → Except PyErr PyVal
  | 0, _ => .error .outOfFuel
  | fuel' + 1, item =>
    match item with
    | .obj cls data =>
      match lookupEnv env cls with
      | Option.none => .error (.classNotFound cls)
      | some fields =>
        match get_field_values_as_dict fields data with
        | .error e => .error e
        | .ok fields_dict =>
          match fields_dict.foldlM
            (fun (acc : List (String × PyVal)) (p : String × PyVal) =>
              show Except PyErr (List (String × PyVal)) from
              match p.2 with
              | .obj c d =>
                match to_json env fuel' (.obj c d) with
                | .error e => .error e
                | .ok w => .ok (assocInsert acc p.1 w)
              | .list xs =>
                match xs.mapM (fun it =>
                    show Except PyErr PyVal from
                    match it with
                    | .obj c d => to_json env fuel' (.obj c d)
                    | _ => .ok it) with
                | .error e => .error e
                | .ok ys => .ok (assocInsert acc p.1 (.list ys))
              | _ => .ok (assocInsert acc p.1 p.2)) [] with
          | .error e => .error e
          | .ok final_dict => .ok (.strDumps final_dict)
    | _ => .error .notAnObject

/-! ### Concrete record types used by the claims

The registered schemas below correspond to class declarations such as

```text
class Person(JsonObject):
    name = StringField()

class Group(JsonObject):
    members = ObjectListField(item_type=Person, serialized_name="people")
```

after `JsonObjectMeta` has assigned names: each `Field` records kind,
serialized name, attribute name and nullability. -/

/-- Person: one nullable String field `name`. -/
def personFields : List Field := [⟨.string, "name", "name", true⟩]

/-- PersonReq: one non-nullable String field `name`. -/
def personReqFields : List Field := [⟨.string, "name", "name", false⟩]

/-- Group: object-list field declared as attribute `members` with
serialized name `people`, items of type Person. -/
def groupFields : List Field := [⟨.objectList "Person", "people", "members", true⟩]

/-- Group2: object-list field whose serialized name equals its attribute
name `members`, items of type Person. -/
def group2Fields : List Field := [⟨.objectList "Person", "members", "members", true⟩]

/-- FloatHolder: one nullable Float field `x`. -/
def floatHolderFields : List Field := [⟨.float, "x", "x", true⟩]

/-- Registry of the record types above. -/
def claimEnv : Env :=
  [("Person", personFields),
   ("PersonReq", personReqFields),
   ("Group", groupFields),
   ("Group2", group2Fields),
   ("FloatHolder", floatHolderFields)]

/-- A Person instance with `name = "Bob"`. -/
def bob : PyVal := .obj "Person" [("name", .strLit "Bob")]

/-- A fully populated Group instance, `Group(members=[Person(name="Bob")])`;
`ObjectListField.__set__` stored the list under the serialized name
`people`. -/
def groupInst : PyVal := .obj "Group" [("people", .list [bob])]

/-- The same record content as a Group2 instance (serialized name =
attribute name). -/
def group2Inst : PyVal := .obj "Group2" [("members", .list [bob])]

/-- The two list-shaped field kinds (`ListField`, `ObjectListField`),
whose `__set__` replaces a null value by the empty list. -/
def FieldKind.isListKind : FieldKind → Bool
  | .listPrim _ => true
  | .objectList _ => true
  | _ => false

/-- C1: the claim states `decode(encode(i), R) == i` for every record type
R and every Record Instance i, at any nesting depth.  The code violates
it: for the fully populated instance `groupInst` of type Group — whose
object-list field `members` carries serialized name `people` — encoding
succeeds, but decoding the encoding raises the unknown-field error for key
`people` instead of returning the instance, because the object-list branch
of `Pykson.from_json` (source line 378) stores the decoded element list
under the *serialized* key while every other branch renames to the
internal field name (line 381), and `my_custom_init` then rejects the
serialized key.  The control conjuncts show the round trip does hold for
the identical record content when the serialized name equals the attribute
name (Group2), isolating the slip to the missing rename. -/
theorem claim_C1_roundtrip_fails :
    to_json claimEnv 2 groupInst =
      .ok (.strDumps [("people", .list [.strDumps [("name", .strLit "Bob")]])])
    ∧ from_json claimEnv 2
        (.strDumps [("people", .list [.strDumps [("name", .strLit "Bob")]])])
        "Group" false
      = .error (.unknownField "people" (.list [bob]))
    ∧ to_json claimEnv 2 group2Inst =
      .ok (.strDumps [("members", .list [.strDumps [("name", .strLit "Bob")]])])
    ∧ from_json claimEnv 2
        (.strDumps [("members", .list [.strDumps [("name", .strLit "Bob")]])])
        "Group2" false
      = .ok group2Inst :=
  ⟨rfl, rfl, rfl, rfl⟩

/-- C2: the claim states that decoding `{}` into a schema with one
non-nullable String field `name` fails with NullValueError, and more
generally that constructing an instance without a value for a non-nullable
field fails.  The code does neither: `JsonObjectMeta.__new__`
unconditionally overwrites every class's `__init__` with `my_custom_init`
(source line 248), so the missing-field null check written at source lines
277-279 (`JsonObject.__init__`) is dead code, and both direct construction
with no arguments and decoding `{}` succeed, yielding an instance whose
`_data` is empty. -/
theorem claim_C2_missing_nonnullable_accepted :
    from_json claimEnv 1 (.dict []) "PersonReq" false = .ok (.obj "PersonReq" [])
    ∧ my_custom_init personReqFields false [] [] = .ok [] :=
  ⟨rfl, rfl⟩

/-- C3: the claim states that encode emits a field value or list element
that is a Record Instance as a nested JSON *object*, never as a JSON
string.  The code emits a string: `Pykson.to_json` recursively calls
itself on nested instances (source lines 392, 397) and its result is the
text `json.dumps` returns, so the object-list element of Group2 appears on
the wire as the printed string of the nested record (`strDumps`, for which
Python's `isinstance(value, str)` holds) rather than as a key/value
mapping. -/
theorem claim_C3_nested_record_encoded_as_string :
    to_json claimEnv 2 group2Inst =
      .ok (.strDumps [("members", .list [.strDumps [("name", .strLit "Bob")]])])
    ∧ isInstStr (.strDumps [("name", .strLit "Bob")]) = true :=
  ⟨rfl, rfl⟩

/-- Lemma: storing under key `k` leaves lookups of other keys unchanged. -/
theorem assocGet_assocInsert_ne {α : Type} (d : List (String × α)) (k k2 : String)
    (v : α) (h : k2 ≠ k) : assocGet (assocInsert d k v) k2 = assocGet d k2 := by
  have hk2 : ¬ (k = k2) := fun hh => h hh.symm
  induction d with
  | nil =>
    simp [assocInsert, assocGet, hk2]
  | cons p rest ih =>
    simp only [assocInsert]
    by_cases hp : p.1 = k
    · have hp2 : ¬ (p.1 = k2) := by rw [hp]; exact hk2
      simp [assocGet, hk2, hp2, hp]
    · by_cases hq : p.1 = k2
      · simp [assocGet, hq, hp, h]
      · simp [assocGet, hq, hp, ih]

/-- Lemma: storing under key `k` makes lookup of `k` return the stored
value. -/
theorem assocGet_assocInsert_self {α : Type} (d : List (String × α)) (k : String)
    (v : α) : assocGet (assocInsert d k v) k = some v := by
  induction d with
  | nil => simp [assocInsert, assocGet]
  | cons p rest ih =>
    simp only [assocInsert]
    by_cases hp : p.1 = k
    · simp [assocGet, hp]
    · simp [assocGet, hp, ih]

/-- Lemma: a successful lookup after a store comes either from the stored
pair or from the original dictionary. -/
theorem assocGet_assocInsert_cases {α : Type} {d : List (String × α)} {k k2 : String}
    {v w : α} (h : assocGet (assocInsert d k v) k2 = some w) :
    (k2 = k ∧ w = v) ∨ assocGet d k2 = some w := by
  by_cases hk : k2 = k
  · subst hk
    rw [assocGet_assocInsert_self] at h
    exact Or.inl ⟨rfl, (Option.some.inj h).symm⟩
  · rw [assocGet_assocInsert_ne _ _ _ _ hk] at h
    exact Or.inr h

/-- Lemma: a key's membership after a store comes from the store or from
the original dictionary. -/
theorem assocInsert_key_mem {α : Type} (d : List (String × α)) (k k2 : String)
    (v : α) (h : k2 ∈ (assocInsert d k v).map Prod.fst) :
    k2 ∈ d.map Prod.fst ∨ k2 = k := by
  induction d with
  | nil =>
    simp [assocInsert] at h
    exact Or.inr h
  | cons p rest ih =>
    simp only [assocInsert] at h
    by_cases hp : p.1 = k
    · rw [if_pos hp] at h
      rw [List.map_cons, List.mem_cons] at h
      rcases h with h | h
      · exact Or.inr h
      · exact Or.inl (by rw [List.map_cons, List.mem_cons]; exact Or.inr h)
    · rw [if_neg hp] at h
      rw [List.map_cons, List.mem_cons] at h
      rcases h with h | h
      · exact Or.inl (by rw [List.map_cons, List.mem_cons]; exact Or.inl h)
      · rcases ih h with h2 | h2
        · exact Or.inl (by rw [List.map_cons, List.mem_cons]; exact Or.inr h2)
        · exact Or.inr h2

/-- Lemma: storing a key that does not occur in the prefix happens
entirely in the suffix. -/
theorem assocInsert_append_of_not_mem {α : Type} (x z : List (String × α))
    (k : String) (v : α) (h : ∀ p ∈ x, p.1 ≠ k) :
    assocInsert (x ++ z) k v = x ++ assocInsert z k v := by
  induction x with
  | nil => rfl
  | cons p rest ih =>
    have hp : ¬ (p.1 = k) := h p (List.mem_cons_self _ _)
    simp only [List.cons_append, assocInsert, if_neg hp, List.append_eq]
    rw [ih (fun q hq => h q (List.mem_cons_of_mem _ hq))]

/-- Lemma: storing a key that occurs in the prefix happens entirely in the
prefix. -/
theorem assocInsert_append_of_mem {α : Type} (x z : List (String × α))
    (k : String) (v : α) (h : ∃ p ∈ x, p.1 = k) :
    assocInsert (x ++ z) k v = assocInsert x k v ++ z := by
  induction x with
  | nil => simp at h
  | cons p rest ih =>
    by_cases hp : p.1 = k
    · simp only [List.cons_append, assocInsert, if_pos hp, List.append_eq]
    · simp only [List.cons_append, assocInsert, if_neg hp, List.append_eq]
      rcases h with ⟨q, hq, hqk⟩
      rcases List.mem_cons.mp hq with rfl | hq2
      · exact absurd hqk hp
      · rw [ih ⟨q, hq2, hqk⟩]

/-- Lemma: a store of a key `κ ≠ k` into a dictionary split around the
pair `(k, v)` keeps that pair in the middle, with the parts around it
stored into exactly as they would be without it. -/
theorem assocInsert_mid (x y : List (String × PyVal)) (k κ : String)
    (v w : PyVal) (h : κ ≠ k) :
    ∃ x2 y2, assocInsert (x ++ y) κ w = x2 ++ y2 ∧
      assocInsert (x ++ (k, v) :: y) κ w = x2 ++ (k, v) :: y2 := by
  by_cases hx : ∃ p ∈ x, p.1 = κ
  · exact ⟨assocInsert x κ w, y, assocInsert_append_of_mem x y κ w hx,
      assocInsert_append_of_mem x ((k, v) :: y) κ w hx⟩
  · push_neg at hx
    refine ⟨x, assocInsert y κ w, assocInsert_append_of_not_mem x y κ w hx, ?_⟩
    rw [assocInsert_append_of_not_mem x ((k, v) :: y) κ w hx]
    have hk : ¬ (k = κ) := fun hh => h hh.symm
    simp only [assocInsert, if_neg hk]

/-- Lemma: folding serialized-name stores of fields none of which carries
the key `k` never makes `k` found. -/
theorem assocGet_foldl_serialized_none {β : Type} (g : Field → β) (k : String) :
    ∀ (fields : List Field) (acc : List (String × β)),
    (∀ f ∈ fields, f.serialized_name ≠ k) → assocGet acc k = Option.none →
    assocGet (fields.foldl (fun a f => assocInsert a f.serialized_name (g f)) acc) k
      = Option.none := by
  intro fields
  induction fields with
  | nil => intro acc _ hacc; exact hacc
  | cons f fs ih =>
    intro acc h hacc
    simp only [List.foldl_cons]
    refine ih _ (fun q hq => h q (List.mem_cons_of_mem _ hq)) ?_
    rw [assocGet_assocInsert_ne _ _ _ _ (fun hh => h f (List.mem_cons_self _ _) hh.symm)]
    exact hacc

/-- Lemma: an unknown key (no field carries it as serialized name) is
found in neither lookup table of `Pykson.from_json`. -/
theorem lookup_tables_none (fields : List Field) (k : String)
    (h : ∀ f ∈ fields, f.serialized_name ≠ k) :
    assocGet (get_fields_mapped_by_serialized_names fields) k = Option.none
    ∧ assocGet (get_field_names_mapped_by_serialized_names fields) k = Option.none :=
  ⟨assocGet_foldl_serialized_none (fun f => f) k fields [] h rfl,
   assocGet_foldl_serialized_none (fun f => f.name) k fields [] h rfl⟩

/-- Lemma: every value held by the serialized-name-to-attribute-name
table is the attribute name of one of the fields. -/
theorem assocGet_names_map_mem :
    ∀ (fields : List Field) (acc : List (String × String)) (k2 n : String),
    assocGet (fields.foldl (fun a f => assocInsert a f.serialized_name f.name) acc) k2
      = some n →
    (∃ f ∈ fields, f.name = n) ∨ assocGet acc k2 = some n := by
  intro fields
  induction fields with
  | nil => intro acc k2 n h; exact Or.inr h
  | cons f fs ih =>
    intro acc k2 n h
    simp only [List.foldl_cons] at h
    rcases ih _ _ _ h with h1 | h2
    · rcases h1 with ⟨g, hg, hgn⟩
      exact Or.inl ⟨g, List.mem_cons_of_mem _ hg, hgn⟩
    · rcases assocGet_assocInsert_cases h2 with ⟨_, rfl⟩ | h3
      · exact Or.inl ⟨f, List.mem_cons_self _ _, rfl⟩
      · exact Or.inr h3

/-- Lemma: an entry whose key is a serialized name of no field takes the
rename-else branch on both lookup misses and lands in `data_copy` under
its own key, value untouched. -/
theorem from_json_entry_unknown (fields : List Field)
    (dec : PyVal → String → Except PyErr PyVal)
    (acc : List (String × PyVal)) (k : String) (v : PyVal)
    (hser : ∀ f ∈ fields, f.serialized_name ≠ k) :
    from_json_entry fields dec acc k v = .ok (assocInsert acc k v) := by
  obtain ⟨hfm, hnm⟩ := lookup_tables_none fields k hser
  cases v <;> simp [from_json_entry, from_json_rename, hfm, hnm]

/-- Lemma: the `data.items()` loop processes an appended input in two
stages. -/
theorem from_json_loop_append (fields : List Field)
    (dec : PyVal → String → Except PyErr PyVal) :
    ∀ (l1 l2 : List (String × PyVal)) (acc : List (String × PyVal)),
    from_json_loop fields dec (l1 ++ l2) acc =
      match from_json_loop fields dec l1 acc with
      | .error e => .error e
      | .ok c => from_json_loop fields dec l2 c := by
  intro l1
  induction l1 with
  | nil => intro l2 acc; simp [from_json_loop]
  | cons p l1x ih =>
    intro l2 acc
    obtain ⟨k0, v0⟩ := p
    simp only [List.cons_append, from_json_loop]
    cases he : from_json_entry fields dec acc k0 v0 with
    | error e => rfl
    | ok c => exact ih l2 c

/-- Lemma: characterization of the list-shape test. -/
theorem isInstList_eq_true_iff (v : PyVal) : isInstList v = true ↔ ∃ xs, v = .list xs := by
  cases v <;> simp [isInstList]

/-- Lemma: a non-list value always takes the rename-else branch of the
loop. -/
theorem from_json_entry_not_list (fields : List Field)
    (dec : PyVal → String → Except PyErr PyVal)
    (acc : List (String × PyVal)) (k0 : String) (v0 : PyVal)
    (h : isInstList v0 = false) :
    from_json_entry fields dec acc k0 v0 = .ok (from_json_rename fields acc k0 v0) := by
  cases v0 <;> simp_all [from_json_entry, isInstList]

/-- Lemma: the rename step around a kept middle pair `(k, v)`: when no
field's attribute name is `k` and the entry key differs from `k`, the
stored key differs from `k`, so the pair persists and the surrounding
parts are stored into exactly as without it. -/
theorem from_json_rename_mid (fields : List Field) (k : String) (v : PyVal)
    (hnames : ∀ f ∈ fields, f.name ≠ k)
    (x y : List (String × PyVal)) (k0 : String) (v0 : PyVal) (hk0 : k0 ≠ k) :
    ∃ x2 y2, from_json_rename fields (x ++ y) k0 v0 = x2 ++ y2 ∧
      from_json_rename fields (x ++ (k, v) :: y) k0 v0 = x2 ++ (k, v) :: y2 := by
  unfold from_json_rename
  cases hnm : assocGet (get_field_names_mapped_by_serialized_names fields) k0 with
  | some n =>
    have hn : n ≠ k := by
      rcases assocGet_names_map_mem fields [] k0 n hnm with ⟨f, hf, hfn⟩ | h2
      · exact hfn ▸ hnames f hf
      · simp [assocGet] at h2
    exact assocInsert_mid x y k n v v0 hn
  | none => exact assocInsert_mid x y k k0 v v0 hk0

/-- Lemma: whether one loop entry fails, and with which error, does not
depend on the accumulated `data_copy` (the only failure source is the
recursive decode of object-list elements). -/
theorem from_json_entry_error_acc (fields : List Field)
    (dec : PyVal → String → Except PyErr PyVal) (k0 : String) (v0 : PyVal)
    (e : PyErr) (acc1 acc2 : List (String × PyVal))
    (h : from_json_entry fields dec acc1 k0 v0 = .error e) :
    from_json_entry fields dec acc2 k0 v0 = .error e := by
  by_cases hlist : ∃ xs, v0 = .list xs
  · obtain ⟨xs, rfl⟩ := hlist
    simp only [from_json_entry] at h ⊢
    cases hfm : assocGet (get_fields_mapped_by_serialized_names fields) k0 with
    | none => rw [hfm] at h; dsimp only at h; cases h
    | some f =>
      rw [hfm] at h
      dsimp only at h ⊢
      cases hk2 : f.kind <;> rw [hk2] at h <;> (try dsimp only at h) <;> (try dsimp only)
      all_goals try (cases h)
      rename_i it
      cases hm : xs.mapM (fun it2 => dec it2 it) with
      | error e0 =>
        rw [hm] at h
        dsimp only at h ⊢
        exact h
      | ok ys => rw [hm] at h; dsimp only at h; cases h
  · have hnl : isInstList v0 = false := by
      have h2 : ¬ isInstList v0 = true := fun hh => hlist ((isInstList_eq_true_iff v0).mp hh)
      simpa using h2
    rw [from_json_entry_not_list fields dec acc1 k0 v0 hnl] at h
    cases h

/-- Lemma: one loop entry acting on a `data_copy` split around a kept
pair `(k, v)` (whose key is no field's attribute name) leaves the pair in
the middle and builds the surroundings exactly as without it. -/
theorem from_json_entry_ok_mid (fields : List Field)
    (dec : PyVal → String → Except PyErr PyVal) (k : String) (v : PyVal)
    (hnames : ∀ f ∈ fields, f.name ≠ k)
    (x y : List (String × PyVal)) (k0 : String) (v0 : PyVal) (hk0 : k0 ≠ k)
    (c : List (String × PyVal))
    (h : from_json_entry fields dec (x ++ y) k0 v0 = .ok c) :
    ∃ x2 y2, c = x2 ++ y2 ∧
      from_json_entry fields dec (x ++ (k, v) :: y) k0 v0 = .ok (x2 ++ (k, v) :: y2) := by
  by_cases hlist : ∃ xs, v0 = .list xs
  · obtain ⟨xs, rfl⟩ := hlist
    simp only [from_json_entry] at h ⊢
    cases hfm : assocGet (get_fields_mapped_by_serialized_names fields) k0 with
    | none =>
      rw [hfm] at h
      dsimp only at h ⊢
      have hc := Except.ok.inj h
      rcases from_json_rename_mid fields k v hnames x y k0 (.list xs) hk0 with
        ⟨x2, y2, h1, h2⟩
      exact ⟨x2, y2, by rw [← hc, h1], by rw [h2]⟩
    | some f =>
      rw [hfm] at h
      dsimp only at h ⊢
      cases hk2 : f.kind <;> rw [hk2] at h <;> (try dsimp only at h) <;> (try dsimp only)
      all_goals try (
        have hc := Except.ok.inj h
        rcases from_json_rename_mid fields k v hnames x y k0 (.list xs) hk0 with
          ⟨x2, y2, h1, h2⟩
        exact ⟨x2, y2, by rw [← hc, h1], by rw [h2]⟩)
      rename_i it
      cases hm : xs.mapM (fun it2 => dec it2 it) with
      | error e0 => rw [hm] at h; dsimp only at h; cases h
      | ok ys =>
        rw [hm] at h
        dsimp only at h ⊢
        have hc := Except.ok.inj h
        rcases assocInsert_mid x y k k0 v (.list ys) hk0 with ⟨x2, y2, h1, h2⟩
        exact ⟨x2, y2, by rw [← hc, h1], by rw [h2]⟩
  · have hnl : isInstList v0 = false := by
      have h2 : ¬ isInstList v0 = true := fun hh => hlist ((isInstList_eq_true_iff v0).mp hh)
      simpa using h2
    rw [from_json_entry_not_list fields dec (x ++ y) k0 v0 hnl] at h
    rw [from_json_entry_not_list fields dec (x ++ (k, v) :: y) k0 v0 hnl]
    have hc := Except.ok.inj h
    rcases from_json_rename_mid fields k v hnames x y k0 v0 hk0 with ⟨x2, y2, h1, h2⟩
    exact ⟨x2, y2, by rw [← hc, h1], by rw [h2]⟩

/-- Lemma: the whole `data.items()` loop acting on a `data_copy` split
around a kept pair `(k, v)` — `k` being no field's attribute name and no
key of the remaining input — fails identically, or succeeds with the pair
still in the middle and the surroundings built exactly as without it. -/
theorem from_json_loop_mid (fields : List Field)
    (dec : PyVal → String → Except PyErr PyVal) (k : String) (v : PyVal)
    (hnames : ∀ f ∈ fields, f.name ≠ k) :
    ∀ (l : List (String × PyVal)), (∀ p ∈ l, p.1 ≠ k) →
    ∀ (x y : List (String × PyVal)),
    (∀ e, from_json_loop fields dec l (x ++ y) = .error e →
       from_json_loop fields dec l (x ++ (k, v) :: y) = .error e)
    ∧ (∀ c, from_json_loop fields dec l (x ++ y) = .ok c →
       ∃ x2 y2, c = x2 ++ y2 ∧
         from_json_loop fields dec l (x ++ (k, v) :: y) = .ok (x2 ++ (k, v) :: y2)) := by
  intro l
  induction l with
  | nil =>
    intro _ x y
    constructor
    · intro e he
      simp [from_json_loop] at he
    · intro c hc
      simp only [from_json_loop] at hc ⊢
      exact ⟨x, y, (Except.ok.inj hc).symm, rfl⟩
  | cons p rest ih =>
    intro hl x y
    obtain ⟨k0, v0⟩ := p
    have hk0 : k0 ≠ k := hl (k0, v0) (List.mem_cons_self _ _)
    have hlr : ∀ q ∈ rest, q.1 ≠ k := fun q hq => hl q (List.mem_cons_of_mem _ hq)
    constructor
    · intro e he
      simp only [from_json_loop] at he ⊢
      cases hent : from_json_entry fields dec (x ++ y) k0 v0 with
      | error e0 =>
        rw [hent] at he
        dsimp only at he
        rw [from_json_entry_error_acc fields dec k0 v0 e0 _ _ hent]
        dsimp only
        exact he
      | ok c0 =>
        rw [hent] at he
        dsimp only at he
        rcases from_json_entry_ok_mid fields dec k v hnames x y k0 v0 hk0 c0 hent with
          ⟨x2, y2, hc0, hmid⟩
        rw [hmid]
        dsimp only
        subst hc0
        exact (ih hlr x2 y2).1 e he
    · intro c hc
      simp only [from_json_loop] at hc ⊢
      cases hent : from_json_entry fields dec (x ++ y) k0 v0 with
      | error e0 => rw [hent] at hc; dsimp only at hc; cases hc
      | ok c0 =>
        rw [hent] at hc
        dsimp only at hc
        rcases from_json_entry_ok_mid fields dec k v hnames x y k0 v0 hk0 c0 hent with
          ⟨x2, y2, hc0, hmid⟩
        rw [hmid]
        dsimp only
        subst hc0
        exact (ih hlr x2 y2).2 c hc

/-- Lemma: a constructor run that succeeds with `accept_unknown=False`
runs identically with `accept_unknown=True` (the flag is consulted only on
unknown keys, of which a succeeding strict run has none). -/
theorem my_custom_init_accept_of_ok (fields : List Field) :
    ∀ (kwargs acc d : List (String × PyVal)),
    my_custom_init fields false kwargs acc = .ok d →
    my_custom_init fields true kwargs acc = .ok d := by
  intro kwargs
  induction kwargs with
  | nil => intro acc d h; exact h
  | cons p rest ih =>
    intro acc d h
    obtain ⟨key, value⟩ := p
    simp only [my_custom_init] at h ⊢
    cases hfind : fields.find? (fun g => g.name = key) with
    | some g =>
      rw [hfind] at h
      dsimp only at h ⊢
      cases hset : field_set g value with
      | error e => rw [hset] at h; cases h
      | ok w =>
        rw [hset] at h
        exact ih _ _ h
    | none =>
      rw [hfind] at h
      dsimp only at h
      simp at h

/-- Lemma: with `accept_unknown=False`, a keyword list that succeeds
without the pair `(k, v)` — `k` matching no field's attribute name —
fails with exactly the unknown-field error for `(k, v)` once the pair is
inserted at any position. -/
theorem my_custom_init_mid_unknown (fields : List Field) (k : String) (v : PyVal)
    (hnames : ∀ f ∈ fields, f.name ≠ k) :
    ∀ (x y acc d : List (String × PyVal)),
    my_custom_init fields false (x ++ y) acc = .ok d →
    my_custom_init fields false (x ++ (k, v) :: y) acc = .error (.unknownField k v) := by
  have hfind : fields.find? (fun f => f.name = k) = Option.none := by
    rw [List.find?_eq_none]
    intro f hf
    simpa using hnames f hf
  intro x
  induction x with
  | nil =>
    intro y acc d _
    simp only [List.nil_append, my_custom_init]
    rw [hfind]
    simp
  | cons p x2 ih =>
    intro y acc d h
    obtain ⟨key, value⟩ := p
    simp only [List.cons_append, my_custom_init] at h ⊢
    cases hfind2 : fields.find? (fun g => g.name = key) with
    | some g =>
      rw [hfind2] at h
      dsimp only at h ⊢
      cases hset : field_set g value with
      | error e => rw [hset] at h; cases h
      | ok w =>
        rw [hset] at h
        exact ih _ _ _ h
    | none =>
      rw [hfind2] at h
      dsimp only at h
      simp at h

/-- Lemma: with `accept_unknown=True`, a pair `(k, v)` whose key matches
no field's attribute name is skipped wherever it sits in the keyword
list. -/
theorem my_custom_init_true_skip (fields : List Field) (k : String) (v : PyVal)
    (hnames : ∀ f ∈ fields, f.name ≠ k) :
    ∀ (x y acc : List (String × PyVal)),
    my_custom_init fields true (x ++ (k, v) :: y) acc =
      my_custom_init fields true (x ++ y) acc := by
  have hfind : fields.find? (fun f => f.name = k) = Option.none := by
    rw [List.find?_eq_none]
    intro f hf
    simpa using hnames f hf
  intro x
  induction x with
  | nil =>
    intro y acc
    simp only [List.nil_append, my_custom_init]
    rw [hfind]
    simp
  | cons p x2 ih =>
    intro y acc
    obtain ⟨key, value⟩ := p
    simp only [List.cons_append, my_custom_init]
    cases hfind2 : fields.find? (fun g => g.name = key) with
    | some g =>
      dsimp only
      cases hset : field_set g value with
      | error e => rfl
      | ok w => exact ih _ _
    | none =>
      dsimp only
      exact ih _ _

/-- Lemma: a key found in the rename step's output was already in
`data_copy`, is the entry's own key, or is some field's attribute name. -/
theorem from_json_rename_keys (fields : List Field)
    (acc : List (String × PyVal)) (k0 : String) (v0 : PyVal) (key : String)
    (h : key ∈ (from_json_rename fields acc k0 v0).map Prod.fst) :
    key ∈ acc.map Prod.fst ∨ key = k0 ∨ ∃ f ∈ fields, f.name = key := by
  unfold from_json_rename at h
  cases hnm : assocGet (get_field_names_mapped_by_serialized_names fields) k0 with
  | some n =>
    rw [hnm] at h
    rcases assocInsert_key_mem _ _ _ _ h with h2 | rfl
    · exact Or.inl h2
    · rcases assocGet_names_map_mem fields [] k0 key hnm with ⟨f, hf, hfn⟩ | h3
      · exact Or.inr (Or.inr ⟨f, hf, hfn⟩)
      · simp [assocGet] at h3
  | none =>
    rw [hnm] at h
    rcases assocInsert_key_mem _ _ _ _ h with h2 | rfl
    · exact Or.inl h2
    · exact Or.inr (Or.inl rfl)

/-- Lemma: a key found after one loop entry was already in `data_copy`,
is the entry's own key, or is some field's attribute name. -/
theorem from_json_entry_keys (fields : List Field)
    (dec : PyVal → String → Except PyErr PyVal)
    (acc : List (String × PyVal)) (k0 : String) (v0 : PyVal)
    (c : List (String × PyVal))
    (h : from_json_entry fields dec acc k0 v0 = .ok c) :
    ∀ key, key ∈ c.map Prod.fst →
      key ∈ acc.map Prod.fst ∨ key = k0 ∨ ∃ f ∈ fields, f.name = key := by
  intro key hkey
  by_cases hlist : ∃ xs, v0 = .list xs
  · obtain ⟨xs, rfl⟩ := hlist
    simp only [from_json_entry] at h
    cases hfm : assocGet (get_fields_mapped_by_serialized_names fields) k0 with
    | none =>
      rw [hfm] at h
      dsimp only at h
      have hc := Except.ok.inj h
      exact from_json_rename_keys fields acc k0 (.list xs) key (hc ▸ hkey)
    | some f =>
      rw [hfm] at h
      dsimp only at h
      cases hk2 : f.kind <;> rw [hk2] at h <;> (try dsimp only at h)
      all_goals try (
        have hc := Except.ok.inj h
        exact from_json_rename_keys fields acc k0 (.list xs) key (hc ▸ hkey))
      rename_i it
      cases hm : xs.mapM (fun it2 => dec it2 it) with
      | error e0 => rw [hm] at h; dsimp only at h; cases h
      | ok ys =>
        rw [hm] at h
        dsimp only at h
        have hc := Except.ok.inj h
        rcases assocInsert_key_mem _ _ _ _ (hc ▸ hkey) with h2 | rfl
        · exact Or.inl h2
        · exact Or.inr (Or.inl rfl)
  · have hnl : isInstList v0 = false := by
      have h2 : ¬ isInstList v0 = true := fun hh => hlist ((isInstList_eq_true_iff v0).mp hh)
      simpa using h2
    rw [from_json_entry_not_list fields dec acc k0 v0 hnl] at h
    have hc := Except.ok.inj h
    exact from_json_rename_keys fields acc k0 v0 key (hc ▸ hkey)

/-- Lemma: every key of the finished `data_copy` was in the starting
accumulator, is one of the input keys, or is some field's attribute
name. -/
theorem from_json_loop_keys (fields : List Field)
    (dec : PyVal → String → Except PyErr PyVal) :
    ∀ (l : List (String × PyVal)) (acc c : List (String × PyVal)),
    from_json_loop fields dec l acc = .ok c →
    ∀ key, key ∈ c.map Prod.fst →
      key ∈ acc.map Prod.fst ∨ (∃ p ∈ l, p.1 = key) ∨ ∃ f ∈ fields, f.name = key := by
  intro l
  induction l with
  | nil =>
    intro acc c h key hkey
    simp only [from_json_loop] at h
    cases h
    exact Or.inl hkey
  | cons p rest ih =>
    intro acc c h key hkey
    obtain ⟨k0, v0⟩ := p
    simp only [from_json_loop] at h
    cases hent : from_json_entry fields dec acc k0 v0 with
    | error e0 => rw [hent] at h; dsimp only at h; cases h
    | ok c0 =>
      rw [hent] at h
      dsimp only at h
      rcases ih c0 c h key hkey with h2 | ⟨q, hq, hqk⟩ | h2
      · rcases from_json_entry_keys fields dec acc k0 v0 c0 hent key h2 with h3 | rfl | h3
        · exact Or.inl h3
        · exact Or.inr (Or.inl ⟨(key, v0), List.mem_cons_self _ _, rfl⟩)
        · exact Or.inr (Or.inr h3)
      · exact Or.inr (Or.inl ⟨q, List.mem_cons_of_mem _ hq, hqk⟩)
      · exact Or.inr (Or.inr h2)

/-- Lemma: one unfolding step of `Pykson.from_json` on a dictionary input
and a registered class. -/
theorem from_json_dict_succ (env : Env) (n : Nat) (items : List (String × PyVal))
    (cls : String) (accept : Bool) (fields : List Field)
    (henv : lookupEnv env cls = some fields) :
    from_json env (n + 1) (.dict items) cls accept =
      match from_json_loop fields (fun it ty => from_json env n it ty false) items [] with
      | .error e => .error e
      | .ok data_copy =>
        match my_custom_init fields accept data_copy [] with
        | .error e => .error e
        | .ok d => .ok (.obj cls d) := by
  simp only [from_json, pyLoads]
  rw [henv]

/-- C4: decoding a mapping that contains, at any position, a pair
`(k, v)` whose key matches no declared field's internal (attribute) or
external (serialized) name — the rest of the mapping decoding fine on its
own — fails with the unknown-field error naming exactly `k` and `v` when
`accept_unknown` is false, and when `accept_unknown` is true succeeds
with precisely the instance obtained from the mapping without the unknown
pair (the key is silently ignored, its value discarded, the remaining
fields decoded normally). -/
theorem claim_C4_unknown_field
    (env : Env) (fuel : Nat) (cls : String) (fields : List Field)
    (d1 d2 : List (String × PyVal)) (k : String) (v inst : PyVal)
    (henv : lookupEnv env cls = some fields)
    (hk : ∀ f ∈ fields, f.name ≠ k ∧ f.serialized_name ≠ k)
    (hd : ∀ p ∈ d1 ++ d2, p.1 ≠ k)
    (hok : from_json env fuel (.dict (d1 ++ d2)) cls false = .ok inst) :
    from_json env fuel (.dict (d1 ++ (k, v) :: d2)) cls false
      = .error (.unknownField k v)
    ∧ from_json env fuel (.dict (d1 ++ (k, v) :: d2)) cls true = .ok inst := by
  have hnames : ∀ f ∈ fields, f.name ≠ k := fun f hf => (hk f hf).1
  cases fuel with
  | zero => simp [from_json] at hok
  | succ n =>
    rw [from_json_dict_succ env n (d1 ++ d2) cls false fields henv] at hok
    cases hl : from_json_loop fields (fun it ty => from_json env n it ty false)
        (d1 ++ d2) [] with
    | error e => rw [hl] at hok; dsimp only at hok; cases hok
    | ok c =>
      rw [hl] at hok
      dsimp only at hok
      cases hinit : my_custom_init fields false c [] with
      | error e => rw [hinit] at hok; dsimp only at hok; cases hok
      | ok d =>
        rw [hinit] at hok
        dsimp only at hok
        have hinst := Except.ok.inj hok
        have hsplit := from_json_loop_append fields
          (fun it ty => from_json env n it ty false) d1 d2 []
        rw [hl] at hsplit
        cases hl1 : from_json_loop fields (fun it ty => from_json env n it ty false)
            d1 [] with
        | error e => rw [hl1] at hsplit; dsimp only at hsplit; cases hsplit
        | ok c1 =>
          rw [hl1] at hsplit
          dsimp only at hsplit
          have hl2 := hsplit.symm
          have hkc1 : ∀ p ∈ c1, p.1 ≠ k := by
            intro p hp hpk
            have hmem : k ∈ c1.map Prod.fst := by
              rw [← hpk]
              exact List.mem_map_of_mem _ hp
            rcases from_json_loop_keys fields _ d1 [] c1 hl1 k hmem with
              h2 | ⟨q, hq, hqk⟩ | ⟨f, hf, hfn⟩
            · simp at h2
            · exact hd q (List.mem_append_left _ hq) hqk
            · exact (hk f hf).1 hfn
          have hins : assocInsert c1 k v = c1 ++ [(k, v)] := by
            have h3 := assocInsert_append_of_not_mem c1 [] k v hkc1
            simpa using h3
          rcases (from_json_loop_mid fields (fun it ty => from_json env n it ty false)
              k v hnames d2 (fun p hp => hd p (List.mem_append_right _ hp)) c1 []).2 c
              (by rw [List.append_nil]; exact hl2) with ⟨x2, y2, hc, hml⟩
          have hinit2 : my_custom_init fields false (x2 ++ y2) [] = .ok d := hc ▸ hinit
          constructor
          · rw [from_json_dict_succ env n (d1 ++ (k, v) :: d2) cls false fields henv]
            rw [from_json_loop_append fields
              (fun it ty => from_json env n it ty false) d1 ((k, v) :: d2) []]
            rw [hl1]
            dsimp only
            simp only [from_json_loop]
            rw [from_json_entry_unknown fields _ c1 k v (fun f hf => (hk f hf).2)]
            dsimp only
            rw [hins, hml]
            dsimp only
            rw [my_custom_init_mid_unknown fields k v hnames x2 y2 [] d hinit2]
          · rw [from_json_dict_succ env n (d1 ++ (k, v) :: d2) cls true fields henv]
            rw [from_json_loop_append fields
              (fun it ty => from_json env n it ty false) d1 ((k, v) :: d2) []]
            rw [hl1]
            dsimp only
            simp only [from_json_loop]
            rw [from_json_entry_unknown fields _ c1 k v (fun f hf => (hk f hf).2)]
            dsimp only
            rw [hins, hml]
            dsimp only
            rw [my_custom_init_true_skip fields k v hnames x2 y2 []]
            rw [my_custom_init_accept_of_ok fields (x2 ++ y2) [] d hinit2]
            dsimp only
            rw [hinst]

/-- C4 witness: the spec's example mapping with the unknown key placed at
either position.  Through the claim theorem (unknown pair at the front),
decoding `{"extra": 1, "name": "Bob"}` into Person fails with the
unknown-field error for `("extra", 1)` when `accept_unknown` is false and
yields `Person(name="Bob")` when it is true; the last two conjuncts check
the spec's own ordering `{"name": "Bob", "extra": 1}` directly. -/
theorem claim_C4_witness :
    from_json claimEnv 1 (.dict [("extra", .int 1), ("name", .strLit "Bob")])
        "Person" false = .error (.unknownField "extra" (.int 1))
    ∧ from_json claimEnv 1 (.dict [("extra", .int 1), ("name", .strLit "Bob")])
        "Person" true = .ok (.obj "Person" [("name", .strLit "Bob")])
    ∧ from_json claimEnv 1 (.dict [("name", .strLit "Bob"), ("extra", .int 1)])
        "Person" false = .error (.unknownField "extra" (.int 1))
    ∧ from_json claimEnv 1 (.dict [("name", .strLit "Bob"), ("extra", .int 1)])
        "Person" true = .ok (.obj "Person" [("name", .strLit "Bob")]) := by
  have h := claim_C4_unknown_field claimEnv 1 "Person" personFields
    [] [("name", .strLit "Bob")] "extra" (.int 1)
    (.obj "Person" [("name", .strLit "Bob")]) rfl
    (by intro f hf; simp [personFields] at hf; simp [hf])
    (by intro p hp; simp at hp; simp [hp])
    (by rfl)
  exact ⟨h.1, h.2, rfl, rfl⟩

/-- C5 counterexample: the claim states that assigning null to a field
declared non-nullable fails with NullValueError *for any field kind,
including list fields*.  The code accepts it for list fields:
`ListField.__set__` and `ObjectListField.__set__` replace `None` by `[]`
(source lines 196-197, 348-349) *before* delegating to the base
`Field.__set__`, so the non-null assert at line 28 sees `[]` and the
assignment succeeds, storing an empty list into the non-nullable field. -/
theorem claim_C5_counterexample :
    field_set ⟨.listPrim .int, "xs", "xs", false⟩ .none = .ok (.list [])
    ∧ field_set ⟨.objectList "Person", "ps", "ps", false⟩ .none = .ok (.list []) :=
  ⟨rfl, rfl⟩

/-- C5 amended: for every *non-list* field kind, assigning null to a
non-nullable field fails with NullValueError, and this failure is the
first (indeed only) check that can fire on a null value — the type and
domain checks of every subclass are guarded by `value is not None`, so no
TypeMismatchError or DomainViolationError can precede it.  For the two
list kinds, null is instead normalized to the empty list and stored
successfully even when the field is non-nullable. -/
theorem claim_C5_null_rejected_except_lists (f : Field) :
    (f.null = false → f.kind.isListKind = false →
      field_set f .none = .error (.nullValue f.serialized_name))
    ∧ (f.kind.isListKind = true → field_set f .none = .ok (.list [])) := by
  obtain ⟨kind, sn, nm, nl⟩ := f
  constructor
  · intro hnull hk
    cases kind <;>
      simp_all [field_set, FieldKind.isListKind, Field_set, isNone, isInstInt,
        isInstFloat, isInstBool, isInstStr]
  · intro hk
    cases kind <;>
      simp_all [field_set, FieldKind.isListKind, Field_set, isNone,
        listItemsCheck, objListItemsCheck]

/-- C5 witness: the amended statement applied to a concrete non-nullable
String field and a concrete non-nullable integer-list field. -/
theorem claim_C5_witness :
    field_set ⟨.string, "name", "name", false⟩ .none = .error (.nullValue "name")
    ∧ field_set ⟨.listPrim .int, "zs", "zs", false⟩ .none = .ok (.list []) :=
  ⟨(claim_C5_null_rejected_except_lists ⟨.string, "name", "name", false⟩).1 rfl rfl,
   (claim_C5_null_rejected_except_lists ⟨.listPrim .int, "zs", "zs", false⟩).2 rfl⟩

/-- C7: constructing a multiple-choice field (string or integer flavour)
fails with ConfigurationError when the option set is empty or has
duplicate values under Python equality, and construction succeeds exactly
when the options are non-empty, duplicate-free and homogeneous in the
declared primitive kind as tested by the runtime `isinstance` check
(which, for the integer flavour, admits booleans — `bool` being an `int`
subclass). -/
theorem claim_C7_multiple_choice_config
    (options : List PyVal) (sn : Option String) (nl : Bool) :
    (options = [] →
      MultipleChoiceStringField_init options sn nl = .error .configError
      ∧ MultipleChoiceIntegerField_init options sn nl = .error .configError)
    ∧ (hasPyDup options = true →
      MultipleChoiceStringField_init options sn nl = .error .configError
      ∧ MultipleChoiceIntegerField_init options sn nl = .error .configError)
    ∧ ((∃ pf, MultipleChoiceStringField_init options sn nl = .ok pf) ↔
        options ≠ [] ∧ hasPyDup options = false ∧ ∀ o ∈ options, isInstStr o = true)
    ∧ ((∃ pf, MultipleChoiceIntegerField_init options sn nl = .ok pf) ↔
        options ≠ [] ∧ hasPyDup options = false ∧ ∀ o ∈ options, isInstInt o = true) := by
  refine ⟨?_, ?_, ?_, ?_⟩
  · rintro rfl
    exact ⟨rfl, rfl⟩
  · intro hdup
    constructor <;>
      simp [MultipleChoiceStringField_init, MultipleChoiceIntegerField_init, hdup]
  · unfold MultipleChoiceStringField_init
    split_ifs with h1 h2 h3
    · simp [List.length_eq_zero.mp h1]
    · simp_all
    · simp_all [List.any_eq_true]
    · simp_all [List.any_eq_true, List.length_eq_zero]
  · unfold MultipleChoiceIntegerField_init
    split_ifs with h1 h2 h3
    · simp [List.length_eq_zero.mp h1]
    · simp_all
    · simp_all [List.any_eq_true]
    · simp_all [List.any_eq_true, List.length_eq_zero]

/-- C7 witness: the duplicate-option example of the spec
(`["a","a","b"]`) and the empty option set, applied through the claim
theorem. -/
theorem claim_C7_witness :
    MultipleChoiceStringField_init [.strLit "a", .strLit "a", .strLit "b"] Option.none true
      = .error .configError
    ∧ MultipleChoiceIntegerField_init [] Option.none true = .error .configError :=
  ⟨((claim_C7_multiple_choice_config
      [.strLit "a", .strLit "a", .strLit "b"] Option.none true).2.1 rfl).1,
   ((claim_C7_multiple_choice_config [] Option.none true).1 rfl).2⟩

/-- Lemma: `my_custom_init` never touches the `_data` slot of a field
whose attribute name is not among the supplied keys (provided no other
field shares its serialized name). -/
theorem my_custom_init_get_unsupplied (fields : List Field) (accept : Bool)
    (f : Field)
    (huniq : ∀ g ∈ fields, g.serialized_name = f.serialized_name → g.name = f.name) :
    ∀ (kwargs acc d : List (String × PyVal)),
    (∀ p ∈ kwargs, p.1 ≠ f.name) →
    my_custom_init fields accept kwargs acc = .ok d →
    assocGet d f.serialized_name = assocGet acc f.serialized_name := by
  intro kwargs
  induction kwargs with
  | nil =>
    intro acc d _ h
    simp only [my_custom_init] at h
    cases h
    rfl
  | cons p rest ih =>
    intro acc d hks h
    obtain ⟨key, value⟩ := p
    simp only [my_custom_init] at h
    cases hfind : fields.find? (fun g => g.name = key) with
    | some g =>
      rw [hfind] at h
      dsimp only at h
      cases hset : field_set g value with
      | error e => rw [hset] at h; cases h
      | ok w =>
        rw [hset] at h
        have hgname : g.name = key := by simpa using List.find?_some hfind
        have hgmem : g ∈ fields := List.mem_of_find?_eq_some hfind
        have hkey : key ≠ f.name := hks (key, value) (List.mem_cons_self _ _)
        have hgser : g.serialized_name ≠ f.serialized_name := by
          intro hh
          exact hkey (hgname ▸ huniq g hgmem hh)
        rw [ih _ _ (fun q hq => hks q (List.mem_cons_of_mem _ hq)) h]
        exact assocGet_assocInsert_ne _ _ _ _ (fun hh => hgser hh.symm)
    | none =>
      rw [hfind] at h
      dsimp only at h
      cases accept with
      | true =>
        simp only [if_pos rfl] at h
        exact ih _ _ (fun q hq => hks q (List.mem_cons_of_mem _ hq)) h
      | false =>
        simp at h

/-- C6 counterexample: the claim states every constructed Record Instance
is fully populated, with an explicit null under each unsupplied nullable
field, so that every declared-field read succeeds.  The code starts
`_data = {}` in `my_custom_init` (source line 238; the prefill
`dict.fromkeys` is commented out) and only stores the keys actually
supplied, so `Person()` has an empty `_data` and reading its declared
field `name` raises KeyError in `Field.__get__` (source line 23) — both
under direct construction and after decoding `{}`. -/
theorem claim_C6_counterexample :
    my_custom_init personFields false [] [] = .ok []
    ∧ Field_get [] ⟨.string, "name", "name", true⟩ = .error (.keyError "name")
    ∧ from_json claimEnv 1 (.dict []) "Person" false = .ok (.obj "Person" []) :=
  ⟨rfl, rfl, rfl⟩

/-- C6 amended: a Record Instance holds one `_data` entry per *supplied*
field only; a declared field whose attribute name was not among the
supplied keys (nullable or not) has no entry under its serialized name —
not an explicit null — and reading it fails with KeyError (assuming no
other field shares its serialized name). -/
theorem claim_C6_unsupplied_field_reads_fail
    (fields : List Field) (accept : Bool) (kwargs d : List (String × PyVal))
    (f : Field)
    (h : my_custom_init fields accept kwargs [] = .ok d)
    (_hf : f ∈ fields)
    (hks : ∀ p ∈ kwargs, p.1 ≠ f.name)
    (huniq : ∀ g ∈ fields, g.serialized_name = f.serialized_name → g.name = f.name) :
    Field_get d f = .error (.keyError f.serialized_name) := by
  have hget := my_custom_init_get_unsupplied fields accept f huniq kwargs [] d hks h
  simp only [Field_get, hget, assocGet]

/-- C6 witness: the amended statement applied to `Person()` — no keyword
arguments supplied, so the read of `name` fails with KeyError. -/
theorem claim_C6_witness :
    Field_get [] ⟨.string, "name", "name", true⟩ = .error (.keyError "name") :=
  claim_C6_unsupplied_field_reads_fail personFields false [] []
    ⟨.string, "name", "name", true⟩ rfl (by simp [personFields])
    (by simp) (by simp [personFields])

/-- C8: an integer assigned or decoded into a Float field is silently
widened to a float of the same numeric value (`FloatField.__set__`, source
lines 54-55; floats are modelled as exact rationals, so the widening is
exact); decoding the spec's example yields `x == 5.0`; and no
field kind other than Float alters an accepted value — a non-list,
non-Float field stores exactly the value it was given, and a list field
stores the value it was given except that null becomes the (documented)
empty list. -/
theorem claim_C8_float_widening :
    (∀ (sn nm : String) (nl : Bool) (n : Int),
      field_set ⟨.float, sn, nm, nl⟩ (.int n) = .ok (.float (intToFloat n)))
    ∧ from_json claimEnv 1 (.dict [("x", .int 5)]) "FloatHolder" false =
        .ok (.obj "FloatHolder" [("x", .float 5)])
    ∧ (∀ (f : Field) (v w : PyVal), f.kind.isListKind = false → f.kind ≠ .float →
        field_set f v = .ok w → w = v)
    ∧ (∀ (f : Field) (v w : PyVal), f.kind.isListKind = true →
        field_set f v = .ok w → w = v ∨ (v = .none ∧ w = .list [])) := by
  refine ⟨?_, rfl, ?_, ?_⟩
  · intro sn nm nl n
    simp [field_set, Field_set, isNone, isInstInt, isInstFloat, pyIntVal]
  · intro f v w hk hne hset
    obtain ⟨kind, sn, nm, nl⟩ := f
    cases kind <;>
      simp_all [field_set, FieldKind.isListKind, Field_set] <;>
      split_ifs at hset <;> simp_all
  · intro f v w hk hset
    obtain ⟨kind, sn, nm, nl⟩ := f
    cases kind <;> simp_all [FieldKind.isListKind] <;>
      cases v <;> simp_all [field_set, Field_set, isNone] <;>
      split at hset <;> simp_all

/-- C8 witness: the widening at `5`, and the no-coercion parts at a
concrete String field storing `"a"` and a concrete integer-list field
storing `[7]`. -/
theorem claim_C8_witness :
    field_set ⟨.float, "x", "x", true⟩ (.int 5) = .ok (.float (intToFloat 5))
    ∧ (.strLit "a" : PyVal) = .strLit "a"
    ∧ ((.list [.int 7] : PyVal) = .list [.int 7]
       ∨ (.list [.int 7] : PyVal) = .none ∧ (.list [.int 7] : PyVal) = .list []) :=
  ⟨claim_C8_float_widening.1 "x" "x" true 5,
   claim_C8_float_widening.2.2.1 ⟨.string, "s", "s", true⟩ (.strLit "a") (.strLit "a")
     rfl (fun h => FieldKind.noConfusion h) rfl,
   claim_C8_float_widening.2.2.2 ⟨.listPrim .int, "zs", "zs", true⟩
     (.list [.int 7]) (.list [.int 7]) rfl rfl⟩

/-- C9: mutating a field of a Record Instance with an invalid value
raises the corresponding error and leaves the previously stored value
untouched.  In every `__set__` override all checks precede the single
store `instance._data[self.serialized_name] = value` (source line 31), so
a raise aborts before any state change: the first conjunct states this
atomicity for every field kind and every failing value; the remaining
conjuncts identify the error raised at the three cited sites — the base
null check, the StringField type check, and the
MultipleChoiceStringField domain check. -/
theorem claim_C9_invalid_mutation_atomic :
    (∀ (d : List (String × PyVal)) (f : Field) (v : PyVal) (e : PyErr),
      (setAttrState d f v).1 = some e → (setAttrState d f v).2 = d)
    ∧ (∀ (d : List (String × PyVal)) (f : Field),
      f.kind = .string → f.null = false →
      setAttrState d f .none = (some (.nullValue f.serialized_name), d))
    ∧ (∀ (d : List (String × PyVal)) (f : Field) (v : PyVal),
      f.kind = .string → isNone v = false → isInstStr v = false →
      setAttrState d f v = (some (.typeMismatch f.name), d))
    ∧ (∀ (d : List (String × PyVal)) (f : Field) (options : List PyVal) (v : PyVal),
      f.kind = .multipleChoiceString options → isNone v = false →
      isInstStr v = true → pyMem v options = false →
      setAttrState d f v = (some (.domainViolation f.name), d)) := by
  refine ⟨?_, ?_, ?_, ?_⟩
  · intro d f v e h
    unfold setAttrState at *
    cases hfs : field_set f v <;> simp [hfs] at h ⊢
  · intro d f hk hnull
    obtain ⟨kind, sn, nm, nl⟩ := f
    cases hk
    simp_all [setAttrState, field_set, Field_set, isNone, isInstStr]
  · intro d f v hk hnn hstr
    obtain ⟨kind, sn, nm, nl⟩ := f
    cases hk
    simp_all [setAttrState, field_set, Field_set]
  · intro d f options v hk hnn hstr hmem
    obtain ⟨kind, sn, nm, nl⟩ := f
    cases hk
    simp_all [setAttrState, field_set, Field_set]

/-- C9 witness: a non-nullable String field holding `"Old"` rejects a
null assignment, an integer value, and (for the multiple-choice flavour)
an out-of-domain string, each time leaving the stored `"Old"` in place. -/
theorem claim_C9_witness :
    setAttrState [("name", .strLit "Old")] ⟨.string, "name", "name", false⟩ .none
      = (some (.nullValue "name"), [("name", .strLit "Old")])
    ∧ setAttrState [("name", .strLit "Old")] ⟨.string, "name", "name", false⟩ (.int 3)
      = (some (.typeMismatch "name"), [("name", .strLit "Old")])
    ∧ setAttrState [("c", .strLit "red")]
        ⟨.multipleChoiceString [.strLit "red", .strLit "green"], "c", "c", true⟩
        (.strLit "blue")
      = (some (.domainViolation "c"), [("c", .strLit "red")]) :=
  ⟨claim_C9_invalid_mutation_atomic.2.1 [("name", .strLit "Old")]
     ⟨.string, "name", "name", false⟩ rfl rfl,
   claim_C9_invalid_mutation_atomic.2.2.1 [("name", .strLit "Old")]
     ⟨.string, "name", "name", false⟩ (.int 3) rfl rfl rfl,
   claim_C9_invalid_mutation_atomic.2.2.2 [("c", .strLit "red")]
     ⟨.multipleChoiceString [.strLit "red", .strLit "green"], "c", "c", true⟩
     [.strLit "red", .strLit "green"] (.strLit "blue") rfl rfl rfl rfl⟩

/-- C10: booleans pass the runtime kind test of the integer fields.
`isinstance(True, int)` holds in Python, so `IntegerField.__set__` accepts
a boolean and stores it as-is (no conversion to `int`), and
`MultipleChoiceIntegerField.__set__` never raises a type error on a
boolean: it stores the boolean as-is when its numeric value is among the
options (`True == 1`, `False == 0` under Python equality) and raises the
domain error otherwise. -/
theorem claim_C10_bool_passes_integer_fields :
    (∀ b, isInstInt (.bool b) = true)
    ∧ (∀ (sn nm : String) (nl : Bool) (b : Bool),
        field_set ⟨.integer, sn, nm, nl⟩ (.bool b) = .ok (.bool b))
    ∧ (∀ (sn nm : String) (nl : Bool) (options : List PyVal) (b : Bool),
        field_set ⟨.multipleChoiceInteger options, sn, nm, nl⟩ (.bool b) =
          if pyMem (.bool b) options = true then .ok (.bool b)
          else .error (.domainViolation nm)) := by
  refine ⟨fun b => rfl, ?_, ?_⟩
  · intro sn nm nl b
    simp [field_set, Field_set, isNone, isInstInt]
  · intro sn nm nl options b
    by_cases h : pyMem (.bool b) options = true <;>
      simp [field_set, Field_set, isNone, isInstInt, h]

/-- C10 witness: `True` stored as-is by a plain integer field, and by a
multiple-choice integer field with options `[1, 2]` (since `True == 1`). -/
theorem claim_C10_witness :
    field_set ⟨.integer, "n", "n", true⟩ (.bool true) = .ok (.bool true)
    ∧ field_set ⟨.multipleChoiceInteger [.int 1, .int 2], "m", "m", true⟩ (.bool true) =
        (if pyMem (.bool true) [.int 1, .int 2] = true then .ok (.bool true)
         else .error (.domainViolation "m")) :=
  ⟨claim_C10_bool_passes_integer_fields.2.1 "n" "n" true true,
   claim_C10_bool_passes_integer_fields.2.2 "m" "m" true [.int 1, .int 2] true⟩

end Pykson
